import Mathlib

/-!
# Verification of the AI-Powered-Job-Prep repository

Shallow embedding of the TypeScript source under `src/` (the two AI streaming
route handlers, the question-persistence route, and the client page
`NewQuestionClientPage`), together with theorems settling the frozen claims.

Modelling conventions:
* JS strings are Lean `String`s / `List Char`; the whitespace class used by
  `trim` and the regex class `\s` is restricted to the ASCII whitespace
  characters (space, tab, LF, CR, VT, FF) — every string appearing in the
  routes and claims is ASCII apart from the em-dash, which is not whitespace.
* JS case-insensitive regex matching over the ASCII needles used by the code
  is modelled with `Char.toLower` comparison.
* JS numbers captured by the retry regexes are kept exact (digit lists), so
  `Math.ceil(Number(m))` is the exact ceiling of the captured decimal numeral.
* Byte streams (`Uint8Array` chunks) are `List Nat` values; `TextEncoder`
  is UTF-8 via `String.toUTF8`.
-/

/-! ## String utilities shared by the embedded code -/

/-- ASCII whitespace class: the characters of JS `\s` / `String.prototype.trim`
that can occur in the strings this code manipulates. -/
def isWs (c : Char) : Bool :=
  c = ' ' || c = '\t' || c = '\n' || c = '\r' || c = '\x0b' || c = '\x0c'

/-- Drop leading whitespace (the left half of JS `trim`). -/
def dropWs (l : List Char) : List Char := l.dropWhile isWs

/-- JS `String.prototype.trim` on a character list. -/
def trimChars (l : List Char) : List Char :=
  (dropWs (dropWs l.reverse).reverse)

/-- Case-insensitive match of a (lowercase, ASCII) literal at the head of
`cs`; returns the remainder after the literal on success. Models matching a
literal inside a `/.../i` JS regex. -/
def matchCaseless : List Char → List Char → Option (List Char)
  | [], rest => some rest
  | _ :: _, [] => none
  | l :: ls, c :: cs => if c.toLower = l then matchCaseless ls cs else none

/-- Does `hay` contain `needle` as a contiguous substring? -/
def containsSub (hay needle : List Char) : Bool :=
  match hay with
  | [] => needle.isEmpty
  | _ :: t => needle.isPrefixOf hay || containsSub t needle

/-- Lower-case a character list (ASCII, matching JS `toLowerCase` on the
needles in scope). -/
def lowerChars (l : List Char) : List Char := l.map Char.toLower

/-- Decimal digit run to a natural number (JS `Number` on an integer numeral,
kept exact). -/
def digitsToNat (ds : List Char) : Nat :=
  ds.foldl (fun n c => n * 10 + (c.toNat - '0'.toNat)) 0

/-! ## The retry-delay regexes of the route catch blocks

Both route handlers classify a thrown error via
`errStr.match(/Please retry in (\d+(?:\.\d+)?)s/i) || errStr.match(/"retryDelay":"(\d+)s"/i)`.
A JS `match` without `g` returns the leftmost match; for these two patterns
greedy digit matching needs no backtracking (a shorter digit run always fails
at the following mandatory character), so the scan below is exact. -/

/-- The numeral captured by group 1 of either retry regex: an integer digit
run and an optional fractional digit run. -/
structure JsNum where
  intDigits : List Char
  fracDigits : List Char
deriving DecidableEq, Repr

/-- `Math.ceil(Number(n))` for a captured decimal numeral, exact. -/
def jsCeil (n : JsNum) : Nat :=
  digitsToNat n.intDigits + (if n.fracDigits.any (fun c => c != '0') then 1 else 0)

/-- Try `/Please retry in (\d+(?:\.\d+)?)s/i` anchored at the head of `cs`. -/
def parseRetryAt (cs : List Char) : Option JsNum :=
  match matchCaseless "please retry in ".data cs with
  | none => none
  | some rest =>
    let ds := rest.takeWhile Char.isDigit
    let rest2 := rest.dropWhile Char.isDigit
    if ds.isEmpty then none
    else
      match rest2 with
      | '.' :: r3 =>
        let fs := r3.takeWhile Char.isDigit
        let r4 := r3.dropWhile Char.isDigit
        if fs.isEmpty then none
        else
          match r4 with
          | c :: _ => if c.toLower = 's' then some ⟨ds, fs⟩ else none
          | [] => none
      | c :: _ => if c.toLower = 's' then some ⟨ds, []⟩ else none
      | [] => none

/-- Leftmost match of `/Please retry in (\d+(?:\.\d+)?)s/i`. -/
def scanRetry : List Char → Option JsNum
  | [] => none
  | c :: t =>
    match parseRetryAt (c :: t) with
    | some n => some n
    | none => scanRetry t

/-- Try `/"retryDelay":"(\d+)s"/i` anchored at the head of `cs`. -/
def parseDelayAt (cs : List Char) : Option JsNum :=
  match matchCaseless "\"retrydelay\":\"".data cs with
  | none => none
  | some rest =>
    let ds := rest.takeWhile Char.isDigit
    let rest2 := rest.dropWhile Char.isDigit
    if ds.isEmpty then none
    else
      match rest2 with
      | c :: '"' :: _ => if c.toLower = 's' then some ⟨ds, []⟩ else none
      | _ => none

/-- Leftmost match of `/"retryDelay":"(\d+)s"/i`. -/
def scanDelay : List Char → Option JsNum
  | [] => none
  | c :: t =>
    match parseDelayAt (c :: t) with
    | some n => some n
    | none => scanDelay t

/-- `errStr.match(re1) || errStr.match(re2)` of the catch blocks: the first
regex wins when it matches anywhere. -/
def retryMatch (s : String) : Option JsNum :=
  match scanRetry s.data with
  | some n => some n
  | none => scanDelay s.data

/-! ## Quota-pattern tests -/

/-- `/quota|RESOURCE_EXHAUSTED|generate_content_free_tier_requests/i.test(errStr)`
— the outer catch-block classification used by both route handlers. -/
def quotaOuterTest (s : String) : Bool :=
  let l := lowerChars s.data
  containsSub l "quota".data ||
  containsSub l "resource_exhausted".data ||
  containsSub l "generate_content_free_tier_requests".data

/-- `/quota|RESOURCE_EXHAUSTED/i.test(msg)` — the synchronous-failure test
guarding the fallback retry in both route handlers (and `isQuotaError` on the
client). -/
def quotaSyncTest (s : String) : Bool :=
  let l := lowerChars s.data
  containsSub l "quota".data || containsSub l "resource_exhausted".data

/-! ## Upstream streams and the re-framing `wrapped` stream (claims C3, C4)

Both route handlers build the identical `wrapped = new ReadableStream(...)`
(feedback route lines 91–114, question route lines 244–266): optionally
enqueue a fallback notice, then pump the upstream body chunk by chunk; on a
read error enqueue a fixed quota message; close in either case. -/

/-- How the upstream body ends: normal completion (`done: true`) or a read
error thrown by `reader.read()`. -/
inductive StreamEnd where
  | closed
  | errored (err : String)
deriving DecidableEq, Repr

/-- An upstream response body: the finite sequence of `Uint8Array` chunks it
yields (each a byte list) and how it ends. -/
structure UpstreamStream where
  chunks : List (List Nat)
  ending : StreamEnd
deriving DecidableEq, Repr

/-- The UTF-8 bytes of the fallback notice enqueued first when
`fallbackUsed` is set. -/
def noticeBytes : List Nat :=
  ("Notice: results are from a fallback model and may be shorter.\n".toUTF8.toList.map
    (fun b => b.toNat))

/-- The UTF-8 bytes of the message enqueued by the `catch` inside the
wrapped stream when the upstream read throws. -/
def quotaStreamMsgBytes : List Nat :=
  ("AI quota exhausted — please check your billing or try again later.".toUTF8.toList.map
    (fun b => b.toNat))

/-- The `while (true) { read / enqueue }` loop together with its `catch`:
the bytes enqueued after the optional notice. -/
def pumpChunks : List (List Nat) → StreamEnd → List Nat
  | [], .closed => []
  | [], .errored _ => quotaStreamMsgBytes
  | c :: cs, e => c ++ pumpChunks cs e

/-- What the wrapped `ReadableStream` delivers: its byte output and whether
`controller.close()` was called. -/
structure WrappedOut where
  bytes : List Nat
  closed : Bool
deriving DecidableEq, Repr

/-- The wrapped stream of both route handlers: the notice (when the fallback
path was taken) followed by the pumped upstream bytes; the controller is
closed on both the normal and the error path. -/
def wrappedStream (fallbackUsed : Bool) (up : UpstreamStream) : WrappedOut :=
  { bytes := (if fallbackUsed then noticeBytes else []) ++ pumpChunks up.chunks up.ending
    closed := true }

/-! ## HTTP responses -/

/-- A response body: a plain string or a wrapped stream. -/
inductive RespBody where
  | text (s : String)
  | stream (w : WrappedOut)
deriving DecidableEq, Repr

/-- A server `Response`: status, body, and headers in insertion order. -/
structure HttpResponse where
  status : Nat
  body : RespBody
  headers : List (String × String)
deriving DecidableEq, Repr

/-! ## The outer catch block of both AI route handlers (claim C1)

The two route files contain the identical classification code
(feedback route lines 117–139, question route lines 269–292): on a thrown
error it builds `errStr`, tests the quota pattern, optionally extracts a
retry delay, and returns a 429 or 500 plain-text response. -/

/-- The shared catch-block classifier, as a function of the already-built
`errStr` (`String(err)` concatenated with `JSON.stringify` of its
`data`/`response` field). -/
def classifyStreamError (errStr : String) : HttpResponse :=
  if quotaOuterTest errStr then
    let base := "AI quota exhausted — please check your billing or try again later."
    match retryMatch errStr with
    | some n =>
      let secs := jsCeil n
      { status := 429
        body := .text (base ++ " Please retry in " ++ toString secs ++ "s.")
        headers := [("Content-Type", "text/plain; charset=utf-8"),
                    ("Retry-After", toString secs)] }
    | none =>
      { status := 429, body := .text base
        headers := [("Content-Type", "text/plain; charset=utf-8")] }
  else
    { status := 500
      body := .text "AI is currently unavailable — please try again later."
      headers := [("Content-Type", "text/plain; charset=utf-8")] }

/-! ## Stream creation with synchronous fallback retry (claim C2) -/

/-- The response of `res.toTextStreamResponse()`: headers and an optional
body stream (`baseRes.body` may be null). -/
structure BaseResponse where
  headers : List (String × String)
  body : Option UpstreamStream
deriving DecidableEq, Repr

/-- Outcome of one `generateAi…(...)` + `toTextStreamResponse()` invocation:
a response, or a synchronously thrown error. The error value is its
`errStr` form (`String(err)` plus the JSON of its data/response field). -/
inductive StreamOutcome where
  | ok (resp : BaseResponse)
  | thrown (err : String)

/-- `headers.set(k, v)`: replace an existing entry or append. -/
def setHeader (hs : List (String × String)) (k v : String) : List (String × String) :=
  if hs.any (fun p => p.1 = k) then
    hs.map (fun p => if p.1 = k then (k, v) else p)
  else hs ++ [(k, v)]

/-- The argument record of a `generateAiQuestionFeedback` call: the fields
passed at the two call sites of the feedback route (lines 58–61 and 73–77). -/
structure GenFeedbackArgs where
  question : String
  answer : String
  modelName : Option String
deriving DecidableEq, Repr

/-- The primary feedback generation call (no `modelName`: default model). -/
def fbPrimaryCall (question answer : String) : GenFeedbackArgs :=
  { question := question, answer := answer, modelName := none }

/-- The feedback route's retry call: `modelName: 'gemini-2.1'` (line 76). -/
def fbFallbackCall (question answer : String) : GenFeedbackArgs :=
  { question := question, answer := answer, modelName := some "gemini-2.1" }

/-- The argument record of a `generateAiQuestion` call: the fields passed at
the two call sites of the question route (lines 207–213 and 226–231).
`previousQuestions` and `jobInfo` are carried opaquely; `onFinish` is a
no-op at both sites and is elided. -/
structure GenQuestionArgs where
  previousQuestions : List String
  jobInfo : String
  difficulty : String
  modelName : Option String
deriving DecidableEq, Repr

/-- The primary question generation call (no `modelName`). -/
def qgPrimaryCall (prev : List String) (jobInfo difficulty : String) : GenQuestionArgs :=
  { previousQuestions := prev, jobInfo := jobInfo, difficulty := difficulty, modelName := none }

/-- The question route's retry call (lines 226–231): the argument list is
identical to the primary call — in particular it passes no `modelName`. -/
def qgRetryCall (prev : List String) (jobInfo difficulty : String) : GenQuestionArgs :=
  { previousQuestions := prev, jobInfo := jobInfo, difficulty := difficulty, modelName := none }

/-! ## The two AI route handlers (claims C1, C2, C6, C7)

Each handler is a function of the parsed request body and of its
environment: the authenticated user, the database views it consults, and
the outcome `runGen` of each generation invocation. Besides the `Response`,
the result records the list of generation invocations performed, so that
"performs no AI generation" is expressible. -/

/-- Serving a successfully created base response: the `baseBody` null check
and the `new Response(wrapped, { headers: baseRes.headers })` (status 200
by default). `runGen i args` below is the outcome of the `i`-th generation
invocation of a request (0 = primary, 1 = retry) with arguments `args`. -/
def serveStream (r : BaseResponse) (fallbackUsed : Bool) : HttpResponse :=
  match r.body with
  | none => { status := 500, body := .text "AI did not return content", headers := [] }
  | some up => { status := 200, body := .stream (wrappedStream fallbackUsed up), headers := r.headers }

/-- Result of a feedback-route request: the response plus the generation
invocations that were performed. -/
structure FbResult where
  response : HttpResponse
  genCalls : List GenFeedbackArgs
deriving DecidableEq, Repr

/-- The `try`/`catch` of the feedback route around stream creation
(lines 56–139): primary attempt, quota-guarded fallback retry with the
`x-ai-fallback` header, wrapped serving, and outer error classification. -/
def fbGenerate (question answer : String)
    (runGen : Nat → GenFeedbackArgs → StreamOutcome) : FbResult :=
  let primaryArgs := fbPrimaryCall question answer
  match runGen 0 primaryArgs with
  | .ok r => { response := serveStream r false, genCalls := [primaryArgs] }
  | .thrown err =>
    if quotaSyncTest err then
      let retryArgs := fbFallbackCall question answer
      match runGen 1 retryArgs with
      | .ok r0 =>
        let r := { r0 with headers := setHeader r0.headers "x-ai-fallback" "true" }
        { response := serveStream r true, genCalls := [primaryArgs, retryArgs] }
      | .thrown e2 =>
        { response := classifyStreamError e2, genCalls := [primaryArgs, retryArgs] }
    else
      { response := classifyStreamError err, genCalls := [primaryArgs] }

/-- The parsed JSON body of a feedback request. -/
structure FeedbackBody where
  prompt : String
  questionId : Option String
  questionText : Option String
deriving DecidableEq, Repr

/-- The zod schema of the feedback route: `prompt` non-empty, the two
optional fields non-empty when present, and `questionId || questionText`. -/
def fbSchemaOk (b : FeedbackBody) : Bool :=
  decide (1 ≤ b.prompt.length) &&
  (match b.questionId with | none => true | some s => decide (1 ≤ s.length)) &&
  (match b.questionText with | none => true | some s => decide (1 ≤ s.length)) &&
  (b.questionId.isSome || b.questionText.isSome)

/-- The feedback route `POST` (feedback route lines 24–139).
`questionLookup qid uid` models `getQuestion(qid, uid)`: the question text
when the question exists and its jobInfo belongs to `uid`, else `none`. -/
def feedbackPOST (b : FeedbackBody) (userId : Option String)
    (questionLookup : String → String → Option String)
    (runGen : Nat → GenFeedbackArgs → StreamOutcome) : FbResult :=
  if fbSchemaOk b = false then
    { response := { status := 400, body := .text "Error generating your feedback", headers := [] }
      genCalls := [] }
  else
    match b.questionId with
    | some qid =>
      match userId with
      | none =>
        { response := { status := 401, body := .text "You are not logged in", headers := [] }
          genCalls := [] }
      | some uid =>
        match questionLookup qid uid with
        | none =>
          { response := { status := 403, body := .text "You do not have permission to do this",
                          headers := [] }
            genCalls := [] }
        | some qtext => fbGenerate qtext b.prompt runGen
    | none =>
      -- `questionTextToUse = questionText!` — no getCurrentUser call on this path
      fbGenerate (b.questionText.getD "") b.prompt runGen

/-- Result of a question-route request. -/
structure QgResult where
  response : HttpResponse
  genCalls : List GenQuestionArgs
deriving DecidableEq, Repr

/-- The `try`/`catch` of the question route around stream creation
(lines 205–292): same shape as the feedback route, but the retry invokes
`generateAiQuestion` with the identical argument list (`qgRetryCall`). -/
def qgGenerate (prev : List String) (jobInfo difficulty : String)
    (runGen : Nat → GenQuestionArgs → StreamOutcome) : QgResult :=
  let primaryArgs := qgPrimaryCall prev jobInfo difficulty
  match runGen 0 primaryArgs with
  | .ok r => { response := serveStream r false, genCalls := [primaryArgs] }
  | .thrown err =>
    if quotaSyncTest err then
      let retryArgs := qgRetryCall prev jobInfo difficulty
      match runGen 1 retryArgs with
      | .ok r0 =>
        let r := { r0 with headers := setHeader r0.headers "x-ai-fallback" "true" }
        { response := serveStream r true, genCalls := [primaryArgs, retryArgs] }
      | .thrown e2 =>
        { response := classifyStreamError e2, genCalls := [primaryArgs, retryArgs] }
    else
      { response := classifyStreamError err, genCalls := [primaryArgs] }

/-- The parsed JSON body of a question-generation request. -/
structure QgBody where
  prompt : String
  jobInfoId : String
deriving DecidableEq, Repr

/-- The zod schema of the question route: `prompt` one of the question
difficulties (`questionDifficulties` of the drizzle schema: easy, medium,
hard — as enumerated in `src/app/api/questions/route.ts`), `jobInfoId`
non-empty. -/
def qgSchemaOk (b : QgBody) : Bool :=
  (b.prompt = "easy" || b.prompt = "medium" || b.prompt = "hard") &&
  decide (1 ≤ b.jobInfoId.length)

/-- The question route `POST` (question route lines 177–292).
`canCreate` is `canCreateQuestion()`, `planLimitMessage` is the imported
`PLAN_LIMIT_MESSAGE`, `jobInfoLookup id uid` models `getJobInfo(id, uid)`
(the jobInfo value when owned by `uid`), and `prevQuestions` models
`getQuestions(jobInfoId)`. -/
def questionPOST (b : QgBody) (userId : Option String) (canCreate : Bool)
    (planLimitMessage : String)
    (jobInfoLookup : String → String → Option String)
    (prevQuestions : String → List String)
    (runGen : Nat → GenQuestionArgs → StreamOutcome) : QgResult :=
  if qgSchemaOk b = false then
    { response := { status := 400, body := .text "Error generating your question", headers := [] }
      genCalls := [] }
  else
    match userId with
    | none =>
      { response := { status := 401, body := .text "You are not logged in", headers := [] }
        genCalls := [] }
    | some uid =>
      if canCreate = false then
        { response := { status := 403, body := .text planLimitMessage, headers := [] }
          genCalls := [] }
      else
        match jobInfoLookup b.jobInfoId uid with
        | none =>
          { response := { status := 403, body := .text "You do not have permission to do this",
                          headers := [] }
            genCalls := [] }
        | some jobInfo =>
          qgGenerate (prevQuestions b.jobInfoId) jobInfo b.prompt runGen

/-! ## JSON-body detection (claim C7)

A necessary condition for a string to be a JSON text (RFC 8259): its first
character after optional whitespace opens a value, i.e. is one of
`{`, `[`, `"`, `-`, a digit, or the first letter of `true`/`false`/`null`.
Every error body produced by the AI routes starts with a capital letter and
fails this condition, so it is not JSON. -/

/-- Necessary condition for `s` to parse as JSON. -/
def couldBeJson (s : String) : Bool :=
  match dropWs s.data with
  | [] => false
  | c :: _ =>
    c = '\x7b' || c = '[' || c = '"' || c = '-' || c.isDigit ||
    c = 't' || c = 'f' || c = 'n'

/-- Does a header list declare a JSON content type? -/
def hasJsonContentType (hs : List (String × String)) : Bool :=
  hs.any (fun p => p.1 = "Content-Type" && containsSub (lowerChars p.2.data) "application/json".data)

/-- The response discipline of the AI routes (claim C7): a 200 streamed
body, or a plain-text error — no JSON content type, and a text body that is
not a JSON text (`plm` excepts the imported `PLAN_LIMIT_MESSAGE`, whose
text is defined outside the provided source). -/
def okStreamOrPlainText (plm : Option String) (r : HttpResponse) : Prop :=
  (∃ w, r.status = 200 ∧ r.body = .stream w) ∨
  (hasJsonContentType r.headers = false ∧
    ∃ m, r.body = .text m ∧ (some m = plm ∨ couldBeJson m = false))

/-! ## The client page status cycle (claim C5)

`NewQuestionClientPage` holds `status : "init" | "awaiting-answer" |
"awaiting-difficulty"`. `setStatus` is called at exactly three sites:
the question stream's `onFinish` (`"awaiting-answer"`), the feedback
stream's `onFinish` (`"awaiting-difficulty"`), and `reset`
(`"init"`, wired to the Skip button). Which events can fire at a given
status follows from `Controls`: Skip and Answer render only when
`status === "awaiting-answer"`, the difficulty buttons only otherwise,
and all buttons are disabled while a stream is in flight — so a question
stream can only complete at a status other than `awaiting-answer`, and a
feedback stream only at `awaiting-answer`. -/

/-- The `Status` union type of the client page. -/
inductive Status where
  | init
  | awaitingAnswer
  | awaitingDifficulty
deriving DecidableEq, Repr

/-- The events of the page that could touch `status`: the two stream
completion callbacks and the three kinds of button clicks, plus the
banner's Dismiss click (which only clears `aiStatus`). -/
inductive PageEvent where
  | questionFinish
  | feedbackFinish
  | skipClick
  | difficultyClick
  | answerClick
  | dismissClick
deriving DecidableEq, Repr

/-- Whether an event can fire while the page is at a given status, as
dictated by what `Controls` renders and by where each stream can be
started. -/
def eventEnabled : Status → PageEvent → Bool
  | s, .questionFinish => s != .awaitingAnswer
  | s, .feedbackFinish => s == .awaitingAnswer
  | s, .skipClick => s == .awaitingAnswer
  | s, .difficultyClick => s != .awaitingAnswer
  | s, .answerClick => s == .awaitingAnswer
  | _, .dismissClick => true

/-- The effect of each event on `status`: the three `setStatus` sites, and
identity for the events that do not call `setStatus`. -/
def stepStatus : Status → PageEvent → Status
  | _, .questionFinish => .awaitingAnswer
  | _, .feedbackFinish => .awaitingDifficulty
  | _, .skipClick => .init
  | s, .difficultyClick => s
  | s, .answerClick => s
  | s, .dismissClick => s

/-- All statuses. -/
def allStatuses : List Status := [.init, .awaitingAnswer, .awaitingDifficulty]

/-- All page events. -/
def allPageEvents : List PageEvent :=
  [.questionFinish, .feedbackFinish, .skipClick, .difficultyClick, .answerClick, .dismissClick]

/-- The transition edges of the status cycle: the enabled (status, event)
pairs whose event actually changes the status. -/
def statusTransitions : List (Status × PageEvent × Status) :=
  (allStatuses.flatMap (fun s => allPageEvents.map (fun e => (s, e)))).filterMap
    (fun p =>
      if eventEnabled p.1 p.2 && stepStatus p.1 p.2 != p.1 then
        some (p.1, p.2, stepStatus p.1 p.2)
      else none)

/-! ## The client retry countdown (claim C8)

`NewQuestionClientPage` keeps `aiStatus : { type, message, retryAfter? } |
null`. The countdown effect installs a 1 s interval whose tick maps the
previous value as in `countdownTick` below; `disableGenerateButtons` is
`aiStatus?.retryAfter != null && aiStatus.retryAfter > 0`. `retryAfter` is
only ever set to `Math.ceil` of a captured delay, i.e. a non-negative
integer, modelled as `Int` so that non-negativity is a statement. -/

/-- The `aiStatus` state value of the client page (`type` is `'error'` or
`'info'`). -/
structure AiStatusVal where
  kind : String
  message : String
  retryAfter : Option Int
deriving DecidableEq, Repr

/-- One tick of the countdown interval:
`prev` unchanged when it has no numeric `retryAfter`; cleared to `null`
when `retryAfter <= 1`; otherwise `retryAfter` decremented by 1. -/
def countdownTick : Option AiStatusVal → Option AiStatusVal
  | none => none
  | some st =>
    match st.retryAfter with
    | none => some st
    | some r => if r ≤ 1 then none else some { st with retryAfter := some (r - 1) }

/-- `aiStatus?.retryAfter != null && aiStatus.retryAfter > 0` (line 218). -/
def disableGenerateButtons (st : Option AiStatusVal) : Bool :=
  match st with
  | none => false
  | some s =>
    match s.retryAfter with
    | none => false
    | some r => decide (0 < r)

/-- The `aiStatus` value installed by the `onError` handlers on a quota
error: `retryAfter` is `Math.ceil` of the captured delay when the server
message carries one. -/
def quotaAiStatus (serverMsg : String) : AiStatusVal :=
  match scanRetry serverMsg.data with
  | some n => { kind := "error", message := serverMsg, retryAfter := some (Int.ofNat (jsCeil n)) }
  | none =>
    { kind := "error"
      message := "AI quota exhausted — please check your billing or try again later."
      retryAfter := none }

/-! ## `sanitizeAIText` (claim C9)

The client helper (part_000 lines 67–74):
split on `/\r?\n/`, drop the lines matching `/^\s*data:\s*/i` or
`/^\s*\[done\]\s*$/i`, join with `'\n'`, `trim()`; the empty result
becomes `null`. -/

/-- Extend the first line of a line list by one leading character. -/
def consHead (c : Char) : List (List Char) → List (List Char)
  | [] => [[c]]
  | l :: ls => (c :: l) :: ls

/-- `text.split(/\r?\n/)`: split at each `\n` or `\r\n`; a `\r` not
followed by `\n` stays inside its line. -/
def splitLines : List Char → List (List Char)
  | [] => [[]]
  | '\r' :: '\n' :: t => [] :: splitLines t
  | '\n' :: t => [] :: splitLines t
  | c :: t => consHead c (splitLines t)

/-- `/^\s*data:\s*/i.test(l)`: after optional whitespace the line starts
with `data:` (the trailing `\s*` always matches). -/
def isDataLine (l : List Char) : Bool :=
  (matchCaseless "data:".data (dropWs l)).isSome

/-- `/^\s*\[done\]\s*$/i.test(l)`. -/
def isDoneLine (l : List Char) : Bool :=
  match matchCaseless "[done]".data (dropWs l) with
  | some rest => rest.all isWs
  | none => false

/-- The filter predicate of `sanitizeAIText` (a kept line). -/
def lineKept (l : List Char) : Bool := !(isDataLine l) && !(isDoneLine l)

/-- `filtered.join('\n')`. -/
def joinNL : List (List Char) → List Char
  | [] => []
  | [l] => l
  | l :: ls => l ++ '\n' :: joinNL ls

/-- `sanitizeAIText` on a character list. -/
def sanitizeChars (cs : List Char) : Option (List Char) :=
  let cleaned := trimChars (joinNL ((splitLines cs).filter lineKept))
  if cleaned.isEmpty then none else some cleaned

/-- `sanitizeAIText(text: string | null): string | null`. -/
def sanitizeAIText : Option String → Option String
  | none => none
  | some s => (sanitizeChars s.data).map (fun l => String.mk l)

/-- Right trim (`trimChars` is `dropWs` after `dropWsRight`). -/
def dropWsRight (l : List Char) : List Char := (dropWs l.reverse).reverse

/-- Lines of right trimming, specified linewise: the lines of
`dropWsRight l` are the lines of `l` up to the last line holding a
non-whitespace character, that line right-trimmed (see
`splitLines_dropWsRight`). -/
def rtrimSpec : List (List Char) → List (List Char)
  | [] => [[]]
  | [l] => [dropWsRight l]
  | l :: ls =>
    if ls.all (fun m => m.all isWs) then [dropWsRight l]
    else l :: rtrimSpec ls

/-- Lines of left trimming, specified linewise (see `splitLines_dropWs`). -/
def ltrimSpec : List (List Char) → List (List Char)
  | [] => [[]]
  | [l] => [dropWs l]
  | l :: ls => if l.all isWs then ltrimSpec ls else dropWs l :: ls

/-- Lines of `joinNL ls` for newline-free lines `ls` (see
`splitLines_joinNL`): an interior line ending in `'\r'` loses that char to
the following separator, forming a CRLF. -/
def joinSpec : List (List Char) → List (List Char)
  | [] => [[]]
  | [l] => [l]
  | l :: ls => (if l.getLast? = some '\r' then l.dropLast else l) :: joinSpec ls

/-- The non-negativity invariant of the countdown state (claim C8). -/
def retryAfterNonneg : Option AiStatusVal → Bool
  | none => true
  | some st =>
    match st.retryAfter with
    | none => true
    | some r => decide (0 ≤ r)

/-! ## The question-persistence route (claim C10)

`src/app/api/questions/route.ts`: parse `{ text, jobInfoId, difficulty }`,
require a logged-in user, then `insertQuestion({ text, jobInfoId,
difficulty })` and return `{ id }`. The handler receives no information
about the owner of `jobInfoId` and passes none to the insert; the model
still takes an ownership view `jobInfoOwner` as an argument to state that
the result does not depend on it. -/

/-- The parsed JSON body of a persistence request. -/
structure PersistBody where
  text : String
  jobInfoId : String
  difficulty : String
deriving DecidableEq, Repr

/-- The zod schema of the persistence route. -/
def persistSchemaOk (b : PersistBody) : Bool :=
  decide (1 ≤ b.text.length) && decide (1 ≤ b.jobInfoId.length) &&
  (b.difficulty = "easy" || b.difficulty = "medium" || b.difficulty = "hard")

/-- `JSON.stringify({ error: true })`. -/
def jsonErrorBody : String := "\x7b\"error\":true\x7d"

/-- `JSON.stringify({ id: inserted.id })` (ids are UUIDs, so no JSON string
escaping arises). -/
def jsonIdBody (id : String) : String := "\x7b\"id\":\"" ++ id ++ "\"\x7d"

/-- The persistence route `POST`. `insert` models
`insertQuestion({ text, jobInfoId, difficulty })`, returning the new row's
id; the second component of the result records whether an insert was
performed. -/
def questionsPersistPOST (b : PersistBody) (userId : Option String)
    (jobInfoOwner : String → Option String)
    (insert : String → String → String → String) : HttpResponse × Bool :=
  if persistSchemaOk b = false then
    ({ status := 400, body := .text jsonErrorBody, headers := [] }, false)
  else
    match userId with
    | none => ({ status := 401, body := .text jsonErrorBody, headers := [] }, false)
    | some _ =>
      ({ status := 200, body := .text (jsonIdBody (insert b.text b.jobInfoId b.difficulty))
         headers := [] }, true)

/-! # Theorems -/

/-! ## Stream pass-through (claims C3, C4) -/

/-- On a stream that completes without error, the pump loop emits exactly
the concatenation of the chunks. -/
theorem pumpChunks_closed (cs : List (List Nat)) : pumpChunks cs .closed = cs.flatten := by
  induction cs with
  | nil => rfl
  | cons c cs ih => simp [pumpChunks, ih]

/-- C4: with no fallback, for an upstream that yields finitely many chunks
and completes without error, the wrapped stream emits exactly the
concatenation of the upstream chunks in order — no bytes added, dropped or
reordered — and then closes. -/
theorem wrapped_passthrough (cs : List (List Nat)) :
    wrappedStream false { chunks := cs, ending := .closed } =
      { bytes := cs.flatten, closed := true } := by
  simp [wrappedStream, pumpChunks_closed]

/-- C3: when the fallback path was taken, the wrapped body is exactly the
UTF-8 notice bytes followed by the pumped upstream bytes (so the notice
precedes any upstream byte); with no fallback, the body is the pumped
upstream bytes alone — no notice is prepended. -/
theorem wrapped_notice (up : UpstreamStream) :
    (wrappedStream true up).bytes = noticeBytes ++ pumpChunks up.chunks up.ending ∧
    noticeBytes <+: (wrappedStream true up).bytes ∧
    (wrappedStream false up).bytes = pumpChunks up.chunks up.ending := by
  refine ⟨rfl, ⟨pumpChunks up.chunks up.ending, rfl⟩, rfl⟩

/-! ## The client status cycle (claim C5) -/

/-- C5: the client page status is one of exactly three states; the status
cycle has exactly the four transitions `init → awaiting-answer` and
`awaiting-difficulty → awaiting-answer` (question-stream completion),
`awaiting-answer → awaiting-difficulty` (feedback-stream completion) and
`awaiting-answer → init` (Skip/reset); and every enabled event that changes
the status is one of those three `setStatus` calls — no other event changes
the status. -/
theorem status_cycle :
    (∀ s : Status, s = .init ∨ s = .awaitingAnswer ∨ s = .awaitingDifficulty) ∧
    statusTransitions =
      [(.init, .questionFinish, .awaitingAnswer),
       (.awaitingAnswer, .feedbackFinish, .awaitingDifficulty),
       (.awaitingAnswer, .skipClick, .init),
       (.awaitingDifficulty, .questionFinish, .awaitingAnswer)] ∧
    statusTransitions.length = 4 ∧
    (∀ s e, eventEnabled s e = true → stepStatus s e ≠ s →
      (stepStatus s e = .awaitingAnswer ∧ e = .questionFinish) ∨
      (stepStatus s e = .awaitingDifficulty ∧ e = .feedbackFinish) ∨
      (stepStatus s e = .init ∧ e = .skipClick)) := by
  refine ⟨fun s => by cases s <;> simp, by decide, by decide, fun s e h1 h2 => ?_⟩
  cases s <;> cases e <;> simp_all [eventEnabled, stepStatus]

/-- Witness for `status_cycle` at a concrete transition. -/
theorem status_cycle_witness :
    (stepStatus .init .questionFinish = .awaitingAnswer ∧
      PageEvent.questionFinish = .questionFinish) ∨
    (stepStatus .init .questionFinish = .awaitingDifficulty ∧
      PageEvent.questionFinish = .feedbackFinish) ∨
    (stepStatus .init .questionFinish = .init ∧ PageEvent.questionFinish = .skipClick) :=
  status_cycle.2.2.2 .init .questionFinish (by decide) (by decide)

/-! ## The question-persistence route (claim C10) -/

/-- C10: for every logged-in user and schema-valid body, the persistence
handler inserts the question and returns 200 with the new question's id —
and the result is independent of the jobInfo-ownership view, which the
handler never consults. -/
theorem questionsPersist_no_ownership_check (b : PersistBody) (u : String)
    (own own2 : String → Option String) (ins : String → String → String → String)
    (hb : persistSchemaOk b = true) :
    questionsPersistPOST b (some u) own ins =
      ({ status := 200, body := .text (jsonIdBody (ins b.text b.jobInfoId b.difficulty)),
         headers := [] }, true) ∧
    questionsPersistPOST b (some u) own ins = questionsPersistPOST b (some u) own2 ins := by
  constructor
  · simp [questionsPersistPOST, hb]
  · rfl

/-- Witness for `questionsPersist_no_ownership_check`: a user persisting a
question against a jobInfo owned by somebody else. -/
theorem questionsPersist_no_ownership_check_witness :
    questionsPersistPOST { text := "Q", jobInfoId := "job1", difficulty := "easy" }
        (some "user1") (fun _ => some "otherUser") (fun _ _ _ => "qid7") =
      ({ status := 200, body := .text (jsonIdBody "qid7"), headers := [] }, true) :=
  (questionsPersist_no_ownership_check
    { text := "Q", jobInfoId := "job1", difficulty := "easy" } "user1"
    (fun _ => some "otherUser") (fun _ => none) (fun _ _ _ => "qid7") (by decide)).1

/-! ## The client retry countdown (claim C8) -/

/-- C8: while `retryAfter` is a number greater than 1, a tick decreases it
by exactly 1; at 1 or less the tick clears `aiStatus` to `null`; the
non-negativity of `retryAfter` is preserved by every number of ticks and
holds for every value the error handlers install; and the generate buttons
are disabled exactly while `retryAfter` is a number greater than 0. -/
theorem countdown_props (st : AiStatusVal) (r : Int) :
    (1 < r → countdownTick (some { st with retryAfter := some r }) =
      some { st with retryAfter := some (r - 1) }) ∧
    (r ≤ 1 → countdownTick (some { st with retryAfter := some r }) = none) ∧
    (∀ o, retryAfterNonneg o = true → retryAfterNonneg (countdownTick o) = true) ∧
    (∀ m, retryAfterNonneg (some (quotaAiStatus m)) = true) ∧
    (∀ o (k : Nat), retryAfterNonneg o = true →
      retryAfterNonneg (countdownTick^[k] o) = true) ∧
    (disableGenerateButtons (some { st with retryAfter := some r }) = true ↔ 0 < r) ∧
    disableGenerateButtons none = false := by
  have step : ∀ o, retryAfterNonneg o = true → retryAfterNonneg (countdownTick o) = true := by
    intro o ho
    match o with
    | none => exact ho
    | some st' =>
      match h : st'.retryAfter with
      | none => simpa [countdownTick, h] using ho
      | some r' =>
        by_cases hr : r' ≤ 1
        · simp [countdownTick, h, hr, retryAfterNonneg]
        · have h0 : (0 : Int) ≤ r' := by
            simpa [retryAfterNonneg, h] using ho
          simp [countdownTick, h, hr, retryAfterNonneg]
          omega
  refine ⟨?_, ?_, step, ?_, ?_, ?_, rfl⟩
  · intro h
    simp [countdownTick]
    omega
  · intro h
    simp [countdownTick, h]
  · intro m
    unfold quotaAiStatus
    match h : scanRetry m.data with
    | some n => simp [retryAfterNonneg]
    | none => simp [retryAfterNonneg]
  · intro o k ho
    induction k generalizing o with
    | zero => simpa using ho
    | succ k ih =>
      rw [Function.iterate_succ_apply]
      exact ih _ (step o ho)
  · simp [disableGenerateButtons]

/-- Witness for `countdown_props` at concrete countdown states. -/
theorem countdown_props_witness :
    countdownTick (some { kind := "error", message := "m", retryAfter := some 3 }) =
      some { kind := "error", message := "m", retryAfter := some 2 } ∧
    countdownTick (some { kind := "error", message := "m", retryAfter := some 1 }) = none ∧
    disableGenerateButtons (some { kind := "error", message := "m", retryAfter := some 3 }) = true ∧
    retryAfterNonneg
      (countdownTick^[5] (some { kind := "error", message := "m", retryAfter := some 3 })) = true := by
  refine ⟨?_, ?_, ?_, ?_⟩
  · exact (countdown_props { kind := "error", message := "m", retryAfter := some 3 } 3).1
      (by decide)
  · exact (countdown_props { kind := "error", message := "m", retryAfter := some 1 } 1).2.1
      (by decide)
  · exact (countdown_props { kind := "error", message := "m", retryAfter := some 3 } 3).2.2.2.2.2.1.mpr
      (by decide)
  · exact (countdown_props { kind := "error", message := "m", retryAfter := some 3 } 3).2.2.2.2.1
      _ 5 (by decide)

/-! ## Error classification in the outer catch block (claim C1) -/

/-- C1: when the error string matches the quota pattern the handler returns
429 with the plain-text quota message, and when a retry delay `N` is
captured the `Retry-After` header is `ceil(N)` and the message ends with
` Please retry in ceil(N)s.`; when the error string does not match, the
handler returns 500 with the fixed unavailability message. -/
theorem classify_quota_errors (s : String) :
    (quotaOuterTest s = false →
      classifyStreamError s =
        { status := 500
          body := .text "AI is currently unavailable — please try again later."
          headers := [("Content-Type", "text/plain; charset=utf-8")] }) ∧
    (quotaOuterTest s = true →
      (classifyStreamError s).status = 429 ∧
      ("Content-Type", "text/plain; charset=utf-8") ∈ (classifyStreamError s).headers ∧
      (retryMatch s = none →
        (classifyStreamError s).body =
          .text "AI quota exhausted — please check your billing or try again later.") ∧
      (∀ n, retryMatch s = some n →
        ("Retry-After", toString (jsCeil n)) ∈ (classifyStreamError s).headers ∧
        ∃ m, (classifyStreamError s).body = .text m ∧
          m = "AI quota exhausted — please check your billing or try again later." ++
                " Please retry in " ++ toString (jsCeil n) ++ "s." ∧
          (" Please retry in " ++ toString (jsCeil n) ++ "s.").data <:+ m.data)) := by
  constructor
  · intro h
    simp [classifyStreamError, h]
  · intro h
    refine ⟨?_, ?_, ?_, ?_⟩
  
    · unfold classifyStreamError
      rw [if_pos (by simp [h])]
      match hr : retryMatch s with
      | some n => simp
      | none => simp
    · unfold classifyStreamError
      rw [if_pos (by simp [h])]
      match hr : retryMatch s with
      | some n => simp
      | none => simp
    · intro hr
      simp [classifyStreamError, h, hr]
    · intro n hr
      refine ⟨?_, ?_⟩
      · simp [classifyStreamError, h, hr]
      · refine ⟨_, by simp [classifyStreamError, h, hr], rfl, ?_⟩
        have hd : ("AI quota exhausted — please check your billing or try again later." ++
              " Please retry in " ++ toString (jsCeil n) ++ "s.").data =
            "AI quota exhausted — please check your billing or try again later.".data ++
              (" Please retry in " ++ toString (jsCeil n) ++ "s.").data := by
          simp [String.data_append]
        rw [hd]
        exact List.suffix_append _ _

/-- Witness for `classify_quota_errors`: a quota error carrying a
fractional retry delay (429, `Retry-After: 3`) and a non-quota error
(500). -/
theorem classify_quota_errors_witness :
    (classifyStreamError "Error: quota exceeded. Please retry in 2.5s.").status = 429 ∧
    ("Retry-After", toString (jsCeil ⟨['2'], ['5']⟩)) ∈
      (classifyStreamError "Error: quota exceeded. Please retry in 2.5s.").headers ∧
    classifyStreamError "boom" =
      { status := 500
        body := .text "AI is currently unavailable — please try again later."
        headers := [("Content-Type", "text/plain; charset=utf-8")] } := by
  have h1 := (classify_quota_errors "Error: quota exceeded. Please retry in 2.5s.").2 (by decide)
  exact ⟨h1.1, (h1.2.2.2 ⟨['2'], ['5']⟩ (by decide)).1,
    (classify_quota_errors "boom").1 (by decide)⟩

/-! ## Synchronous fallback retry (claim C2)

The feedback route's retry passes `modelName: 'gemini-2.1'`; the question
route's retry passes the argument list of the primary call unchanged — no
fallback model — while still setting `x-ai-fallback: 'true'`. -/

/-- C2: on a synchronous quota error both routes retry and set
`x-ai-fallback: 'true'` on the retried response, and a non-matching error
propagates without retry — but the question route's retry invokes
`generateAiQuestion` with the identical arguments (same default model),
unlike the feedback route's `gemini-2.1` retry. -/
theorem question_route_retry_same_model :
    (∀ prev jobInfo difficulty,
      qgRetryCall prev jobInfo difficulty = qgPrimaryCall prev jobInfo difficulty ∧
      (qgRetryCall prev jobInfo difficulty).modelName = none) ∧
    (∀ q a, (fbFallbackCall q a).modelName = some "gemini-2.1" ∧
      (fbPrimaryCall q a).modelName = none) ∧
    (qgGenerate [] "jobX" "easy"
        (fun i _ =>
          if i = 0 then .thrown "Error: quota exceeded"
          else .ok { headers := [], body := some { chunks := [[104, 105]], ending := .closed } }) =
      { response :=
          { status := 200
            body := .stream (wrappedStream true { chunks := [[104, 105]], ending := .closed })
            headers := [("x-ai-fallback", "true")] }
        genCalls := [qgPrimaryCall [] "jobX" "easy", qgRetryCall [] "jobX" "easy"] }) ∧
    (fbGenerate "Q" "A"
        (fun i _ =>
          if i = 0 then .thrown "Error: quota exceeded"
          else .ok { headers := [], body := some { chunks := [[104, 105]], ending := .closed } }) =
      { response :=
          { status := 200
            body := .stream (wrappedStream true { chunks := [[104, 105]], ending := .closed })
            headers := [("x-ai-fallback", "true")] }
        genCalls := [fbPrimaryCall "Q" "A", fbFallbackCall "Q" "A"] }) ∧
    (qgGenerate [] "jobX" "easy" (fun _ _ => .thrown "boom") =
      { response := classifyStreamError "boom", genCalls := [qgPrimaryCall [] "jobX" "easy"] }) ∧
    (fbGenerate "Q" "A" (fun _ _ => .thrown "boom") =
      { response := classifyStreamError "boom", genCalls := [fbPrimaryCall "Q" "A"] }) :=
  ⟨fun _ _ _ => ⟨rfl, rfl⟩, fun _ _ => ⟨rfl, rfl⟩, rfl, rfl, rfl, rfl⟩

/-! ## Authentication gate (claim C6) -/

/-- C6 counterexample: a logged-out caller sending `questionText` (no
`questionId`) receives AI-generated feedback — the handler performs the
generation and serves a 200 stream instead of returning 401. -/
theorem feedback_unauthenticated_generation :
    (feedbackPOST { prompt := "my answer", questionId := none, questionText := some "Q?" }
        none (fun _ _ => none)
        (fun _ _ => .ok { headers := [], body := some { chunks := [[104]], ending := .closed } })
      ).response.status = 200 ∧
    (feedbackPOST { prompt := "my answer", questionId := none, questionText := some "Q?" }
        none (fun _ _ => none)
        (fun _ _ => .ok { headers := [], body := some { chunks := [[104]], ending := .closed } })
      ).genCalls = [fbPrimaryCall "Q?" "my answer"] ∧
    (feedbackPOST { prompt := "my answer", questionId := none, questionText := some "Q?" }
        none (fun _ _ => none)
        (fun _ _ => .ok { headers := [], body := some { chunks := [[104]], ending := .closed } })
      ).response.status ≠ 401 := by
  exact ⟨rfl, rfl, by decide⟩

/-- C6 (amended): the question route always requires login — a logged-out
caller gets 401 `You are not logged in` and no generation runs; the
feedback route requires login only when `questionId` is present, with the
same 401 and no generation. -/
theorem auth_gate_amended (qb : QgBody) (b : FeedbackBody) (canCreate : Bool)
    (plm : String) (jlook : String → String → Option String)
    (prevq : String → List String) (runQ : Nat → GenQuestionArgs → StreamOutcome)
    (qlook : String → String → Option String) (runF : Nat → GenFeedbackArgs → StreamOutcome) :
    (qgSchemaOk qb = true →
      questionPOST qb none canCreate plm jlook prevq runQ =
        { response := { status := 401, body := .text "You are not logged in", headers := [] }
          genCalls := [] }) ∧
    (fbSchemaOk b = true → b.questionId.isSome = true →
      feedbackPOST b none qlook runF =
        { response := { status := 401, body := .text "You are not logged in", headers := [] }
          genCalls := [] }) := by
  constructor
  · intro h
    simp [questionPOST, h]
  · intro h hq
    match hid : b.questionId with
    | some qid => simp [feedbackPOST, h, hid]
    | none => simp [hid] at hq

/-- Witness for `auth_gate_amended`: concrete logged-out requests to both
routes. -/
theorem auth_gate_amended_witness :
    questionPOST { prompt := "easy", jobInfoId := "j1" } none true "limit"
        (fun _ _ => none) (fun _ => []) (fun _ _ => .thrown "x") =
      { response := { status := 401, body := .text "You are not logged in", headers := [] }
        genCalls := [] } ∧
    feedbackPOST { prompt := "a", questionId := some "q1", questionText := none } none
        (fun _ _ => none) (fun _ _ => .thrown "x") =
      { response := { status := 401, body := .text "You are not logged in", headers := [] }
        genCalls := [] } := by
  have h := auth_gate_amended { prompt := "easy", jobInfoId := "j1" }
    { prompt := "a", questionId := some "q1", questionText := none } true "limit"
    (fun _ _ => none) (fun _ => []) (fun _ _ => .thrown "x")
    (fun _ _ => none) (fun _ _ => .thrown "x")
  exact ⟨h.1 (by decide), h.2 (by decide) (by decide)⟩

/-! ## Error bodies are plain text, not JSON (claim C7) -/

/-- The quota message keeps starting with `A` under any suffix, so it is
never a JSON text. -/
theorem couldBeJson_quota_append (t : String) :
    couldBeJson
      ("AI quota exhausted — please check your billing or try again later." ++ t) = false := by
  have hA : "AI quota exhausted — please check your billing or try again later.".data
      = 'A' :: "I quota exhausted — please check your billing or try again later.".data := by
    decide
  unfold couldBeJson
  rw [String.data_append, hA, List.cons_append]
  rw [show dropWs ('A' :: ("I quota exhausted — please check your billing or try again later.".data
        ++ t.data)) =
      'A' :: ("I quota exhausted — please check your billing or try again later.".data ++ t.data) from by
    unfold dropWs
    rw [List.dropWhile_cons, if_neg (by decide)]]
  rfl

/-- Every response of the outer catch-block classifier is a plain-text
non-JSON error. -/
theorem classifyStreamError_plaintext (p : Option String) (e : String) :
    okStreamOrPlainText p (classifyStreamError e) := by
  unfold classifyStreamError
  split
  · cases hr : retryMatch e with
    | some n =>
      refine Or.inr ⟨rfl, _, rfl, Or.inr ?_⟩
      have := couldBeJson_quota_append
        (" Please retry in " ++ toString (jsCeil n) ++ "s.")
      simpa [String.append_assoc] using this
    | none => exact Or.inr ⟨rfl, _, rfl, Or.inr (by decide)⟩
  · exact Or.inr ⟨rfl, _, rfl, Or.inr (by decide)⟩

/-- Every served stream-creation result is a 200 stream or a plain-text
non-JSON error. -/
theorem serveStream_plaintext (p : Option String) (r : BaseResponse) (f : Bool) :
    okStreamOrPlainText p (serveStream r f) := by
  unfold serveStream
  cases hb : r.body with
  | none => exact Or.inr ⟨rfl, _, rfl, Or.inr (by decide)⟩
  | some up => exact Or.inl ⟨_, rfl, rfl⟩

/-- The feedback route's generation block only yields a 200 stream or a
plain-text non-JSON error. -/
theorem fbGenerate_plaintext (p : Option String) (q a : String)
    (runGen : Nat → GenFeedbackArgs → StreamOutcome) :
    okStreamOrPlainText p (fbGenerate q a runGen).response := by
  simp only [fbGenerate]
  cases h0 : runGen 0 (fbPrimaryCall q a) with
  | ok r => exact serveStream_plaintext p r false
  | thrown err =>
    dsimp only
    by_cases hq : quotaSyncTest err = true
    · rw [if_pos hq]
      cases h1 : runGen 1 (fbFallbackCall q a) with
      | ok r0 => exact serveStream_plaintext p _ true
      | thrown e2 => exact classifyStreamError_plaintext p e2
    · rw [if_neg hq]
      exact classifyStreamError_plaintext p err

/-- The question route's generation block only yields a 200 stream or a
plain-text non-JSON error. -/
theorem qgGenerate_plaintext (p : Option String) (prev : List String) (ji d : String)
    (runGen : Nat → GenQuestionArgs → StreamOutcome) :
    okStreamOrPlainText p (qgGenerate prev ji d runGen).response := by
  simp only [qgGenerate]
  cases h0 : runGen 0 (qgPrimaryCall prev ji d) with
  | ok r => exact serveStream_plaintext p r false
  | thrown err =>
    dsimp only
    by_cases hq : quotaSyncTest err = true
    · rw [if_pos hq]
      cases h1 : runGen 1 (qgRetryCall prev ji d) with
      | ok r0 => exact serveStream_plaintext p _ true
      | thrown e2 => exact classifyStreamError_plaintext p e2
    · rw [if_neg hq]
      exact classifyStreamError_plaintext p err

/-- C7 counterexample: the 400 response for an invalid feedback body
carries the plain string `Error generating your feedback`, which is not a
JSON text (while e.g. the persistence route's `{"error":true}` is one). -/
theorem feedback_error_not_json :
    (feedbackPOST { prompt := "", questionId := none, questionText := none } none
        (fun _ _ => none) (fun _ _ => .thrown "x")).response =
      { status := 400, body := .text "Error generating your feedback", headers := [] } ∧
    couldBeJson "Error generating your feedback" = false ∧
    couldBeJson jsonErrorBody = true := by
  exact ⟨rfl, by decide, by decide⟩

/-- C7 (amended): every response of the two AI routes is a 200 streamed
body or a plain-text error — never a JSON content type, and every error
body other than the imported `PLAN_LIMIT_MESSAGE` is not a JSON text. -/
theorem ai_routes_error_responses_plaintext
    (b : FeedbackBody) (qb : QgBody) (userId : Option String) (canCreate : Bool)
    (plm : String) (qlook jlook : String → String → Option String)
    (prevq : String → List String) (runF : Nat → GenFeedbackArgs → StreamOutcome)
    (runQ : Nat → GenQuestionArgs → StreamOutcome) :
    okStreamOrPlainText none (feedbackPOST b userId qlook runF).response ∧
    okStreamOrPlainText (some plm)
      (questionPOST qb userId canCreate plm jlook prevq runQ).response := by
  constructor
  · simp only [feedbackPOST]
    split
    · exact Or.inr ⟨rfl, _, rfl, Or.inr (by decide)⟩
    · cases hqid : b.questionId with
      | some qid =>
        dsimp only
        cases userId with
        | none => exact Or.inr ⟨rfl, _, rfl, Or.inr (by decide)⟩
        | some uid =>
          dsimp only
          cases hql : qlook qid uid with
          | none => exact Or.inr ⟨rfl, _, rfl, Or.inr (by decide)⟩
          | some qtext => exact fbGenerate_plaintext none qtext b.prompt runF
      | none => exact fbGenerate_plaintext none _ b.prompt runF
  · simp only [questionPOST]
    split
    · exact Or.inr ⟨rfl, _, rfl, Or.inr (by decide)⟩
    · cases userId with
      | none => exact Or.inr ⟨rfl, _, rfl, Or.inr (by decide)⟩
      | some uid =>
        dsimp only
        split
        · exact Or.inr ⟨rfl, _, rfl, Or.inl rfl⟩
        · cases hjl : jlook qb.jobInfoId uid with
          | none => exact Or.inr ⟨rfl, _, rfl, Or.inr (by decide)⟩
          | some ji => exact qgGenerate_plaintext (some plm) _ ji qb.prompt runQ

/-! ## `sanitizeAIText` (claim C9)

Supporting lemmas: whitespace trimming, line splitting/joining and their
interaction, and invariance of the line filter under boundary whitespace. -/

/-- The head of a `dropWs` result is never whitespace. -/
theorem dropWs_head (l : List Char) (c : Char) (r : List Char)
    (h : dropWs l = c :: r) : isWs c = false := by
  induction l with
  | nil => simp [dropWs] at h
  | cons a t ih =>
    by_cases ha : isWs a = true
    · rw [dropWs, List.dropWhile_cons, if_pos ha] at h
      exact ih h
    · rw [dropWs, List.dropWhile_cons, if_neg ha] at h
      cases h
      simpa using ha

/-- `dropWs` is idempotent. -/
theorem dropWs_idem (l : List Char) : dropWs (dropWs l) = dropWs l := by
  cases h : dropWs l with
  | nil => rfl
  | cons c r =>
    rw [dropWs, List.dropWhile_cons, if_neg]
    simp [dropWs_head l c r h]

/-- `dropWs` past a whitespace head. -/
theorem dropWs_cons_ws (c : Char) (l : List Char) (hc : isWs c = true) :
    dropWs (c :: l) = dropWs l := by
  rw [dropWs, List.dropWhile_cons, if_pos hc]
  rfl

/-- `dropWs` stops at a non-whitespace head. -/
theorem dropWs_cons_not_ws (c : Char) (l : List Char) (hc : isWs c = false) :
    dropWs (c :: l) = c :: l := by
  rw [dropWs, List.dropWhile_cons, if_neg (by simp [hc])]

/-- `dropWs` over an append. -/
theorem dropWs_append (a b : List Char) :
    dropWs (a ++ b) = if dropWs a = [] then dropWs b else dropWs a ++ b := by
  induction a with
  | nil => simp [dropWs]
  | cons c t ih =>
    by_cases hc : isWs c = true
    · rw [List.cons_append, dropWs_cons_ws c _ hc, dropWs_cons_ws c t hc, ih]
    · rw [List.cons_append, dropWs_cons_not_ws c _ (by simpa using hc),
        dropWs_cons_not_ws c t (by simpa using hc)]
      simp

/-- A list is all whitespace exactly when `dropWs` empties it. -/
theorem dropWs_eq_nil_iff (l : List Char) : dropWs l = [] ↔ l.all isWs = true := by
  induction l with
  | nil => simp [dropWs]
  | cons c t ih =>
    by_cases hc : isWs c = true
    · rw [dropWs, List.dropWhile_cons, if_pos hc]
      simp [hc, ih, dropWs]
    · rw [dropWs, List.dropWhile_cons, if_neg hc]
      simp [hc]

/-- Dropping an all-whitespace prefix. -/
theorem dropWs_ws_front (w l : List Char) (hw : w.all isWs = true) :
    dropWs (w ++ l) = dropWs l := by
  rw [dropWs_append, if_pos ((dropWs_eq_nil_iff w).mpr hw)]

/-- A successful caseless match extends along any appended tail. -/
theorem matchCaseless_append (n x y r : List Char)
    (h : matchCaseless n x = some r) : matchCaseless n (x ++ y) = some (r ++ y) := by
  induction n generalizing x r with
  | nil =>
    simp [matchCaseless] at h
    simp [matchCaseless, h]
  | cons a m ih =>
    match x with
    | [] => simp [matchCaseless] at h
    | c :: x' =>
      rw [matchCaseless] at h
      by_cases hc : c.toLower = a
      · rw [if_pos hc] at h
        rw [List.cons_append, matchCaseless, if_pos hc]
        exact ih x' r h
      · rw [if_neg hc] at h
        cases h

/-- Whitespace characters are unchanged by `Char.toLower`. -/
theorem toLower_ws (c : Char) (h : isWs c = true) : c.toLower = c := by
  rw [isWs] at h
  simp only [Bool.or_eq_true, decide_eq_true_eq] at h
  rcases h with ((((h | h) | h) | h) | h) | h <;> subst h <;> decide

/-- Against a needle with no whitespace characters, matching over
`x ++ w` with `w` all whitespace is matching over `x`. -/
theorem matchCaseless_ws_tail (n x w : List Char)
    (hn : n.all (fun c => !(isWs c)) = true) (hw : w.all isWs = true) :
    matchCaseless n (x ++ w) = (matchCaseless n x).map (fun r => r ++ w) := by
  induction n generalizing x with
  | nil => simp [matchCaseless]
  | cons a m ih =>
    simp only [List.all_cons, Bool.and_eq_true, Bool.not_eq_true'] at hn
    match x with
    | [] =>
      simp only [List.nil_append, matchCaseless]
      match w, hw with
      | [], _ => simp [matchCaseless]
      | c :: w', hw =>
        simp only [List.all_cons, Bool.and_eq_true] at hw
        rw [matchCaseless, if_neg]
        · simp
        · rw [toLower_ws c hw.1]
          intro hc
          rw [hc] at hw
          rw [hn.1] at hw
          exact absurd hw.1 (by simp)
    | c :: x' =>
      rw [List.cons_append, matchCaseless, matchCaseless]
      by_cases hc : c.toLower = a
      · rw [if_pos hc, if_pos hc]
        exact ih x' hn.2
      · rw [if_neg hc, if_neg hc]
        rfl

/-- `isDataLine` ignores a whitespace prefix. -/
theorem isDataLine_ws_front (w l : List Char) (hw : w.all isWs = true) :
    isDataLine (w ++ l) = isDataLine l := by
  rw [isDataLine, isDataLine, dropWs_ws_front w l hw]

/-- `isDoneLine` ignores a whitespace prefix. -/
theorem isDoneLine_ws_front (w l : List Char) (hw : w.all isWs = true) :
    isDoneLine (w ++ l) = isDoneLine l := by
  rw [isDoneLine, isDoneLine, dropWs_ws_front w l hw]

/-- `isDataLine` ignores a whitespace suffix. -/
theorem isDataLine_append_ws (l w : List Char) (hw : w.all isWs = true) :
    isDataLine (l ++ w) = isDataLine l := by
  rw [isDataLine, isDataLine, dropWs_append]
  cases hd : dropWs l with
  | nil =>
    rw [if_pos rfl, (dropWs_eq_nil_iff w).mpr hw]
  | cons c r =>
    rw [if_neg (by simp [hd])]
    rw [matchCaseless_ws_tail "data:".data (c :: r) w (by decide) hw]
    simp

/-- `isDoneLine` ignores a whitespace suffix. -/
theorem isDoneLine_append_ws (l w : List Char) (hw : w.all isWs = true) :
    isDoneLine (l ++ w) = isDoneLine l := by
  rw [isDoneLine, isDoneLine, dropWs_append]
  cases hd : dropWs l with
  | nil =>
    rw [if_pos rfl, (dropWs_eq_nil_iff w).mpr hw]
  | cons c r =>
    rw [if_neg (by simp [hd])]
    rw [matchCaseless_ws_tail "[done]".data (c :: r) w (by decide) hw]
    cases hm : matchCaseless "[done]".data (c :: r) with
    | none => rfl
    | some rest => simp [hw]

/-- The line filter ignores a whitespace suffix. -/
theorem lineKept_append_ws (l w : List Char) (hw : w.all isWs = true) :
    lineKept (l ++ w) = lineKept l := by
  rw [lineKept, lineKept, isDataLine_append_ws l w hw, isDoneLine_append_ws l w hw]

/-- The line filter ignores a whitespace prefix. -/
theorem lineKept_ws_front (w l : List Char) (hw : w.all isWs = true) :
    lineKept (w ++ l) = lineKept l := by
  rw [lineKept, lineKept, isDataLine_ws_front w l hw, isDoneLine_ws_front w l hw]

/-- The line filter keeps the empty line. -/
theorem lineKept_nil : lineKept [] = true := by decide

/-- The line filter is invariant under left trimming. -/
theorem lineKept_dropWs (l : List Char) : lineKept (dropWs l) = lineKept l := by
  conv_rhs => rw [show l = l.takeWhile isWs ++ l.dropWhile isWs from
    (List.takeWhile_append_dropWhile (p := isWs) (l := l)).symm]
  rw [lineKept_ws_front _ _ List.all_takeWhile]
  rfl

/-- Right-trim decomposition: the removed suffix is all whitespace. -/
theorem dropWsRight_decomp (l : List Char) :
    ∃ w, l = dropWsRight l ++ w ∧ w.all isWs = true := by
  refine ⟨(l.reverse.takeWhile isWs).reverse, ?_, ?_⟩
  · have h : l.reverse = l.reverse.takeWhile isWs ++ l.reverse.dropWhile isWs :=
      (List.takeWhile_append_dropWhile (p := isWs) (l := l.reverse)).symm
    have h2 := congrArg List.reverse h
    rw [List.reverse_reverse, List.reverse_append] at h2
    exact h2
  · rw [List.all_reverse]
    exact List.all_takeWhile

/-- The line filter is invariant under right trimming. -/
theorem lineKept_dropWsRight (l : List Char) : lineKept (dropWsRight l) = lineKept l := by
  obtain ⟨w, hl, hw⟩ := dropWsRight_decomp l
  conv_rhs => rw [hl]
  rw [lineKept_append_ws _ w hw]

/-- The generic `splitLines` equation for a head that opens no separator. -/
theorem splitLines_cons_generic (c : Char) (t : List Char)
    (h1 : ∀ (t' : List Char), c = '\r' → t = '\n' :: t' → False)
    (h2 : c = '\n' → False) :
    splitLines (c :: t) = consHead c (splitLines t) := by
  simp [splitLines, h1, h2]

/-- `splitLines` never returns an empty line list. -/
theorem splitLines_ne_nil (l : List Char) : splitLines l ≠ [] := by
  induction l using splitLines.induct with
  | case1 => simp [splitLines]
  | case2 t ih => simp [splitLines]
  | case3 t ih => simp [splitLines]
  | case4 c t h1 h2 ih =>
    rw [splitLines_cons_generic c t h1 h2]
    cases splitLines t with
    | nil => simp [consHead]
    | cons h tl => simp [consHead]

/-- Characters of a line come from the split string. -/
theorem mem_splitLines (l : List Char) :
    ∀ L ∈ splitLines l, ∀ c ∈ L, c ∈ l := by
  induction l using splitLines.induct with
  | case1 =>
    intro L hL c hc
    simp [splitLines] at hL
    subst hL
    simp at hc
  | case2 t ih =>
    intro L hL c hc
    rw [splitLines] at hL
    rcases List.mem_cons.mp hL with h | h
    · subst h; simp at hc
    · exact List.mem_cons_of_mem _ (List.mem_cons_of_mem _ (ih L h c hc))
  | case3 t ih =>
    intro L hL c hc
    rw [splitLines] at hL
    rcases List.mem_cons.mp hL with h | h
    · subst h; simp at hc
    · exact List.mem_cons_of_mem _ (ih L h c hc)
  | case4 a t h1 h2 ih =>
    intro L hL c hc
    rw [splitLines_cons_generic a t h1 h2] at hL
    cases hsp : splitLines t with
    | nil => exact absurd hsp (splitLines_ne_nil t)
    | cons h tl =>
      rw [hsp, consHead] at hL
      rcases List.mem_cons.mp hL with hx | hx
      · subst hx
        rcases List.mem_cons.mp hc with hx | hx
        · rw [hx]; exact List.mem_cons_self a t
        · exact List.mem_cons_of_mem _ (ih h (by rw [hsp]; exact List.mem_cons_self h tl) c hx)
      · exact List.mem_cons_of_mem _
          (ih L (by rw [hsp]; exact List.mem_cons_of_mem _ hx) c hc)

/-- Every line of an all-whitespace string is all whitespace, and
conversely. -/
theorem allWs_splitLines (l : List Char) :
    ((splitLines l).all (fun L => L.all isWs)) = l.all isWs := by
  induction l using splitLines.induct with
  | case1 => simp [splitLines]
  | case2 t ih => simp +decide [splitLines, ih, isWs]
  | case3 t ih => simp +decide [splitLines, ih, isWs]
  | case4 a t h1 h2 ih =>
    rw [splitLines_cons_generic a t h1 h2]
    cases hsp : splitLines t with
    | nil => exact absurd hsp (splitLines_ne_nil t)
    | cons h tl =>
      rw [hsp] at ih
      rw [List.all_cons] at ih
      rw [consHead, List.all_cons, List.all_cons, List.all_cons, Bool.and_assoc, ih]

/-- Lines contain no newline character. -/
theorem splitLines_noNL (l : List Char) : ∀ L ∈ splitLines l, '\n' ∉ L := by
  induction l using splitLines.induct with
  | case1 =>
    intro L hL
    simp [splitLines] at hL
    simp [hL]
  | case2 t ih =>
    intro L hL
    rw [splitLines] at hL
    rcases List.mem_cons.mp hL with h | h
    · simp [h]
    · exact ih L h
  | case3 t ih =>
    intro L hL
    rw [splitLines] at hL
    rcases List.mem_cons.mp hL with h | h
    · simp [h]
    · exact ih L h
  | case4 a t h1 h2 ih =>
    intro L hL
    rw [splitLines_cons_generic a t h1 h2] at hL
    cases hsp : splitLines t with
    | nil => exact absurd hsp (splitLines_ne_nil t)
    | cons h tl =>
      rw [hsp, consHead] at hL
      rcases List.mem_cons.mp hL with hx | hx
      · subst hx
        intro hmem
        rcases List.mem_cons.mp hmem with hx | hx
        · exact h2 hx.symm
        · exact ih h (by rw [hsp]; exact List.mem_cons_self h tl) hx
      · exact ih L (by rw [hsp]; exact List.mem_cons_of_mem _ hx)

/-- A newline-free string is a single line. -/
theorem splitLines_single (l : List Char) (h : '\n' ∉ l) : splitLines l = [l] := by
  induction l with
  | nil => rfl
  | cons c t ih =>
    have hc : c ≠ '\n' := fun hx => h (hx ▸ List.mem_cons_self c t)
    have ht : '\n' ∉ t := fun hx => h (List.mem_cons_of_mem _ hx)
    rw [splitLines_cons_generic c t
      (fun t' _ het => ht (het ▸ List.mem_cons_self '\n' t'))
      (fun hx => hc hx)]
    rw [ih ht, consHead]

/-- A single-line split means the string is that line. -/
theorem splitLines_eq_single (l h : List Char) (hs : splitLines l = [h]) : l = h := by
  induction l using splitLines.induct generalizing h with
  | case1 =>
    rw [splitLines] at hs
    cases hs
    rfl
  | case2 t ih =>
    rw [splitLines] at hs
    injection hs with hh ht
    exact absurd ht (splitLines_ne_nil t)
  | case3 t ih =>
    rw [splitLines] at hs
    injection hs with hh ht
    exact absurd ht (splitLines_ne_nil t)
  | case4 a t h1 h2 ih =>
    rw [splitLines_cons_generic a t h1 h2] at hs
    cases hsp : splitLines t with
    | nil => exact absurd hsp (splitLines_ne_nil t)
    | cons h' tl =>
      rw [hsp, consHead] at hs
      cases hs
      rw [ih h' hsp]

/-- Splitting a newline-free line followed by a separator: a trailing
`'\r'` merges into the separator (CRLF). -/
theorem splitLines_append_newline (f : List Char) (hf : '\n' ∉ f) (r : List Char) :
    splitLines (f ++ '\n' :: r) =
      (if f.getLast? = some '\r' then f.dropLast else f) :: splitLines r := by
  induction f with
  | nil => simp [splitLines]
  | cons c f' ih =>
    have hc : c ≠ '\n' := fun hx => hf (hx ▸ List.mem_cons_self c f')
    have hf' : '\n' ∉ f' := fun hx => hf (List.mem_cons_of_mem _ hx)
    by_cases hcr : c = '\r' ∧ f' = []
    · obtain ⟨hc1, hc2⟩ := hcr
      subst hc1
      subst hc2
      rw [show ((['\r'] : List Char) ++ '\n' :: r) = '\r' :: '\n' :: r from rfl, splitLines]
      simp
    · have h1 : ∀ t', c = '\r' → f' ++ '\n' :: r = '\n' :: t' → False := by
        intro t' hcx hft
        cases f' with
        | nil => exact hcr ⟨hcx, rfl⟩
        | cons d f'' =>
          rw [List.cons_append] at hft
          injection hft with hd _
          exact hf' (hd ▸ List.mem_cons_self d f'')
      rw [List.cons_append, splitLines_cons_generic c _ h1 (fun hx => hc hx), ih hf']
      cases f' with
      | nil =>
        have hcr' : c ≠ '\r' := fun hx => hcr ⟨hx, rfl⟩
        dsimp only [consHead]
        simp [hcr']
      | cons d f'' =>
        dsimp only [consHead]
        rw [List.getLast?_cons_cons]
        by_cases hL : (d :: f'').getLast? = some '\r'
        · rw [if_pos hL, if_pos hL,
            show (c :: d :: f'').dropLast = c :: (d :: f'').dropLast from rfl]
        · rw [if_neg hL, if_neg hL]

/-- Right trimming is empty exactly on all-whitespace strings. -/
theorem dropWsRight_eq_nil_iff (l : List Char) :
    dropWsRight l = [] ↔ l.all isWs = true := by
  rw [dropWsRight, List.reverse_eq_nil_iff, dropWs_eq_nil_iff, List.all_reverse]

/-- Right trimming a cons cell. -/
theorem dropWsRight_cons (c : Char) (t : List Char) :
    dropWsRight (c :: t) =
      if t.all isWs = true then (if isWs c = true then [] else [c])
      else c :: dropWsRight t := by
  rw [dropWsRight, List.reverse_cons, dropWs_append]
  by_cases ht : t.all isWs = true
  · rw [if_pos ((dropWs_eq_nil_iff t.reverse).mpr (by rwa [List.all_reverse])), if_pos ht]
    by_cases hc : isWs c = true
    · rw [if_pos hc, dropWs_cons_ws c [] hc]
      rfl
    · rw [if_neg hc, dropWs_cons_not_ws c [] (by simpa using hc)]
      rfl
  · have h1 : ¬ dropWs t.reverse = [] := by
      rw [dropWs_eq_nil_iff, List.all_reverse]
      exact ht
    rw [if_neg h1, if_neg ht, List.reverse_append]
    rfl

/-- Left-trimming a string trims its line list as `ltrimSpec`. -/
theorem splitLines_dropWs (l : List Char) :
    splitLines (dropWs l) = ltrimSpec (splitLines l) := by
  induction l using splitLines.induct with
  | case1 => rfl
  | case2 t ih =>
    rw [show dropWs ('\r' :: '\n' :: t) = dropWs t from by
      rw [dropWs_cons_ws _ _ (by decide), dropWs_cons_ws _ _ (by decide)]]
    rw [ih, splitLines]
    cases hsp : splitLines t with
    | nil => exact absurd hsp (splitLines_ne_nil t)
    | cons h tl => simp [ltrimSpec]
  | case3 t ih =>
    rw [dropWs_cons_ws _ _ (by decide), ih, splitLines]
    cases hsp : splitLines t with
    | nil => exact absurd hsp (splitLines_ne_nil t)
    | cons h tl => simp [ltrimSpec]
  | case4 c t h1 h2 ih =>
    rw [splitLines_cons_generic c t h1 h2]
    by_cases hc : isWs c = true
    · rw [dropWs_cons_ws c t hc, ih]
      cases hsp : splitLines t with
      | nil => exact absurd hsp (splitLines_ne_nil t)
      | cons h tl =>
        dsimp only [consHead]
        cases tl with
        | nil => simp [ltrimSpec, dropWs_cons_ws c h hc]
        | cons h2' tl' => simp [ltrimSpec, hc, dropWs_cons_ws c h hc]
    · rw [dropWs_cons_not_ws c t (by simpa using hc), splitLines_cons_generic c t h1 h2]
      cases hsp : splitLines t with
      | nil => exact absurd hsp (splitLines_ne_nil t)
      | cons h tl =>
        dsimp only [consHead]
        cases tl with
        | nil => simp [ltrimSpec, dropWs_cons_not_ws c h (by simpa using hc)]
        | cons h2' tl' =>
          simp [ltrimSpec, hc, dropWs_cons_not_ws c h (by simpa using hc)]

/-- Right-trimming a string trims its line list as `rtrimSpec`. -/
theorem splitLines_dropWsRight (l : List Char) :
    splitLines (dropWsRight l) = rtrimSpec (splitLines l) := by
  induction l using splitLines.induct with
  | case1 => rfl
  | case2 t ih =>
    rw [dropWsRight_cons]
    by_cases ht : ('\n' :: t).all isWs = true
    · have ht' : t.all isWs = true := by simpa [isWs] using ht
      rw [if_pos ht, if_pos (by decide)]
      have hrhs : rtrimSpec (splitLines ('\r' :: '\n' :: t)) = [[]] := by
        rw [splitLines]
        cases hsp : splitLines t with
        | nil => exact absurd hsp (splitLines_ne_nil t)
        | cons h tl =>
          have hall : ((h :: tl).all (fun m => m.all isWs)) = true := by
            rw [← hsp, allWs_splitLines]
            exact ht'
          simp [rtrimSpec, hall, dropWsRight, dropWs]
      rw [hrhs]
      rfl
    · have ht' : ¬ t.all isWs = true := by simpa [isWs] using ht
      rw [if_neg ht, dropWsRight_cons, if_neg ht']
      rw [splitLines, ih]
      have hrhs : rtrimSpec (splitLines ('\r' :: '\n' :: t)) =
          [] :: rtrimSpec (splitLines t) := by
        rw [splitLines]
        cases hsp : splitLines t with
        | nil => exact absurd hsp (splitLines_ne_nil t)
        | cons h tl =>
          have hall : ¬ ((h :: tl).all (fun m => m.all isWs)) = true := by
            rw [← hsp, allWs_splitLines]
            exact ht'
          simp [rtrimSpec, hall]
      rw [hrhs]
  | case3 t ih =>
    rw [dropWsRight_cons]
    by_cases ht : t.all isWs = true
    · rw [if_pos ht, if_pos (by decide)]
      have hrhs : rtrimSpec (splitLines ('\n' :: t)) = [[]] := by
        rw [splitLines]
        cases hsp : splitLines t with
        | nil => exact absurd hsp (splitLines_ne_nil t)
        | cons h tl =>
          have hall : ((h :: tl).all (fun m => m.all isWs)) = true := by
            rw [← hsp, allWs_splitLines]
            exact ht
          simp [rtrimSpec, hall, dropWsRight, dropWs]
      rw [hrhs]
      rfl
    · rw [if_neg ht, splitLines, ih]
      have hrhs : rtrimSpec (splitLines ('\n' :: t)) = [] :: rtrimSpec (splitLines t) := by
        rw [splitLines]
        cases hsp : splitLines t with
        | nil => exact absurd hsp (splitLines_ne_nil t)
        | cons h tl =>
          have hall : ¬ ((h :: tl).all (fun m => m.all isWs)) = true := by
            rw [← hsp, allWs_splitLines]
            exact ht
          simp [rtrimSpec, hall]
      rw [hrhs]
  | case4 c t h1 h2 ih =>
    rw [dropWsRight_cons]
    have hgen : splitLines (c :: t) = consHead c (splitLines t) :=
      splitLines_cons_generic c t h1 h2
    by_cases ht : t.all isWs = true
    · rw [if_pos ht, hgen]
      cases hsp : splitLines t with
      | nil => exact absurd hsp (splitLines_ne_nil t)
      | cons h tl =>
        have hall : ((h :: tl).all (fun m => m.all isWs)) = true := by
          rw [← hsp, allWs_splitLines]
          exact ht
        simp only [List.all_cons, Bool.and_eq_true] at hall
        dsimp only [consHead]
        have hch : rtrimSpec ((c :: h) :: tl) = [dropWsRight (c :: h)] := by
          cases tl with
          | nil => rw [rtrimSpec]
          | cons x xs => simp [rtrimSpec, hall.2]
        rw [hch, dropWsRight_cons, if_pos hall.1]
        by_cases hc : isWs c = true
        · rw [if_pos hc]
          rfl
        · rw [if_neg hc]
          rw [splitLines_single [c] (by intro hx; rcases List.mem_cons.mp hx with h' | h'
                                        · exact h2 h'.symm
                                        · simp at h')]
    · rw [if_neg ht, hgen]
      have h1' : ∀ t', c = '\r' → dropWsRight t = '\n' :: t' → False := by
        intro t' hcx hdt
        obtain ⟨w, hw, _⟩ := dropWsRight_decomp t
        rw [hdt] at hw
        exact h1 (t' ++ w) hcx (by rw [hw]; rfl)
      rw [splitLines_cons_generic c _ h1' h2, ih]
      cases hsp : splitLines t with
      | nil => exact absurd hsp (splitLines_ne_nil t)
      | cons h tl =>
        dsimp only [consHead]
        cases tl with
        | nil =>
          have hth : t = h := splitLines_eq_single t h hsp
          have hh : ¬ h.all isWs = true := by
            rw [← hth]
            exact ht
          rw [rtrimSpec, rtrimSpec]
          dsimp only [consHead]
          rw [dropWsRight_cons, if_neg hh]
        | cons h2'' tl' =>
          by_cases hall : ((h2'' :: tl').all (fun m => m.all isWs)) = true
          · have hh : ¬ h.all isWs = true := by
              intro hhh
              apply ht
              rw [← allWs_splitLines, hsp]
              simp [hhh, hall]
            have e1 : rtrimSpec (h :: h2'' :: tl') = [dropWsRight h] := by
              simp [rtrimSpec, hall]
            have e2 : rtrimSpec ((c :: h) :: h2'' :: tl') = [dropWsRight (c :: h)] := by
              simp [rtrimSpec, hall]
            rw [e1, e2]
            dsimp only [consHead]
            rw [dropWsRight_cons, if_neg hh]
          · have e1 : rtrimSpec (h :: h2'' :: tl') = h :: rtrimSpec (h2'' :: tl') := by
              simp [rtrimSpec, hall]
            have e2 : rtrimSpec ((c :: h) :: h2'' :: tl') =
                (c :: h) :: rtrimSpec (h2'' :: tl') := by
              simp [rtrimSpec, hall]
            rw [e1, e2]

/-- Splitting a joined list of newline-free lines: interior lines ending in
`'\r'` lose that character to a CRLF separator, as `joinSpec` records. -/
theorem splitLines_joinNL (F : List (List Char)) (hF : ∀ f ∈ F, '\n' ∉ f) :
    splitLines (joinNL F) = joinSpec F := by
  induction F with
  | nil => rfl
  | cons f F' ih =>
    cases F' with
    | nil =>
      rw [show joinNL [f] = f from rfl,
        splitLines_single f (hF f (List.mem_cons_self f [])), joinSpec]
    | cons g F'' =>
      rw [show joinNL (f :: g :: F'') = f ++ '\n' :: joinNL (g :: F'') from rfl]
      rw [splitLines_append_newline f (hF f (List.mem_cons_self _ _)) _]
      rw [ih (fun x hx => hF x (List.mem_cons_of_mem _ hx))]
      simp [joinSpec]

/-- `joinSpec` preserves "all lines kept". -/
theorem joinSpec_kept (F : List (List Char)) (hF : ∀ f ∈ F, lineKept f = true) :
    ∀ g ∈ joinSpec F, lineKept g = true := by
  induction F with
  | nil =>
    intro g hg
    rw [joinSpec] at hg
    rcases List.mem_cons.mp hg with h | h
    · rw [h]
      exact lineKept_nil
    · simp at h
  | cons f F' ih =>
    cases F' with
    | nil =>
      intro g hg
      rw [joinSpec] at hg
      rcases List.mem_cons.mp hg with h | h
      · rw [h]
        exact hF f (List.mem_cons_self f [])
      · simp at h
    | cons g' F'' =>
      intro g hg
      rw [show joinSpec (f :: g' :: F'') =
          (if f.getLast? = some '\r' then f.dropLast else f) :: joinSpec (g' :: F'') from by
        simp [joinSpec]] at hg
      rcases List.mem_cons.mp hg with h | h
      · rw [h]
        by_cases hL : f.getLast? = some '\r'
        · rw [if_pos hL]
          have hne : f ≠ [] := by
            intro hx
            rw [hx] at hL
            simp at hL
          have hf : f = f.dropLast ++ ['\r'] := by
            have h3 := List.dropLast_append_getLast hne
            rw [(List.getLast_eq_iff_getLast?_eq_some hne).mpr hL] at h3
            exact h3.symm
          have hk := hF f (List.mem_cons_self _ _)
          rw [hf, lineKept_append_ws _ ['\r'] (by decide)] at hk
          exact hk
        · rw [if_neg hL]
          exact hF f (List.mem_cons_self _ _)
      · exact ih (fun x hx => hF x (List.mem_cons_of_mem _ hx)) g h

/-- `ltrimSpec` preserves "all lines kept". -/
theorem ltrimSpec_kept (ls : List (List Char)) (hF : ∀ f ∈ ls, lineKept f = true) :
    ∀ g ∈ ltrimSpec ls, lineKept g = true := by
  induction ls with
  | nil =>
    intro g hg
    rw [ltrimSpec] at hg
    rcases List.mem_cons.mp hg with h | h
    · rw [h]
      exact lineKept_nil
    · simp at h
  | cons l ls' ih =>
    cases ls' with
    | nil =>
      intro g hg
      rw [ltrimSpec] at hg
      rcases List.mem_cons.mp hg with h | h
      · rw [h, lineKept_dropWs]
        exact hF l (List.mem_cons_self _ _)
      · simp at h
    | cons m ls'' =>
      intro g hg
      rw [show ltrimSpec (l :: m :: ls'') =
          (if l.all isWs = true then ltrimSpec (m :: ls'') else dropWs l :: m :: ls'') from by
        simp [ltrimSpec]] at hg
      by_cases hl : l.all isWs = true
      · rw [if_pos hl] at hg
        exact ih (fun x hx => hF x (List.mem_cons_of_mem _ hx)) g hg
      · rw [if_neg hl] at hg
        rcases List.mem_cons.mp hg with h | h
        · rw [h, lineKept_dropWs]
          exact hF l (List.mem_cons_self _ _)
        · exact hF g (List.mem_cons_of_mem _ h)

/-- `rtrimSpec` preserves "all lines kept". -/
theorem rtrimSpec_kept (ls : List (List Char)) (hF : ∀ f ∈ ls, lineKept f = true) :
    ∀ g ∈ rtrimSpec ls, lineKept g = true := by
  induction ls with
  | nil =>
    intro g hg
    rw [rtrimSpec] at hg
    rcases List.mem_cons.mp hg with h | h
    · rw [h]
      exact lineKept_nil
    · simp at h
  | cons l ls' ih =>
    cases ls' with
    | nil =>
      intro g hg
      rw [rtrimSpec] at hg
      rcases List.mem_cons.mp hg with h | h
      · rw [h, lineKept_dropWsRight]
        exact hF l (List.mem_cons_self _ _)
      · simp at h
    | cons m ls'' =>
      intro g hg
      rw [show rtrimSpec (l :: m :: ls'') =
          (if (m :: ls'').all (fun x => x.all isWs) = true then [dropWsRight l]
           else l :: rtrimSpec (m :: ls'')) from by
        simp [rtrimSpec]] at hg
      by_cases hl : (m :: ls'').all (fun x => x.all isWs) = true
      · rw [if_pos hl] at hg
        rcases List.mem_cons.mp hg with h | h
        · rw [h, lineKept_dropWsRight]
          exact hF l (List.mem_cons_self _ _)
        · simp at h
      · rw [if_neg hl] at hg
        rcases List.mem_cons.mp hg with h | h
        · rw [h]
          exact hF l (List.mem_cons_self _ _)
        · exact ih (fun x hx => hF x (List.mem_cons_of_mem _ hx)) g h

/-- A string whose last character is not whitespace is right-trim fixed. -/
theorem dropWsRight_eq_self (l : List Char) (c : Char)
    (h : l.getLast? = some c) (hc : isWs c = false) : dropWsRight l = l := by
  have hh : l.reverse.head? = some c := by
    rw [List.head?_reverse]
    exact h
  cases hr : l.reverse with
  | nil => simp [hr] at hh
  | cons d r =>
    rw [hr] at hh
    injection hh with hd
    subst hd
    rw [dropWsRight, hr, dropWs_cons_not_ws d r hc, ← hr, List.reverse_reverse]

/-- The last character of a non-empty right trim is not whitespace. -/
theorem dropWsRight_getLast (l : List Char) (h : dropWsRight l ≠ []) :
    ∃ c, (dropWsRight l).getLast? = some c ∧ isWs c = false := by
  have h2 : dropWs l.reverse ≠ [] := by
    intro hx
    apply h
    rw [dropWsRight, hx]
    rfl
  cases hd : dropWs l.reverse with
  | nil => exact absurd hd h2
  | cons c r =>
    refine ⟨c, ?_, dropWs_head l.reverse c r hd⟩
    rw [dropWsRight, hd, ← List.head?_reverse, List.reverse_reverse]
    rfl

/-- The left trim of a right-trimmed string is still right-trimmed. -/
theorem dropWsRight_dropWs_dropWsRight (l : List Char) :
    dropWsRight (dropWs (dropWsRight l)) = dropWs (dropWsRight l) := by
  cases hT : dropWs (dropWsRight l) with
  | nil => rfl
  | cons c r =>
    have hXne : dropWsRight l ≠ [] := by
      intro hx
      rw [hx] at hT
      simp [dropWs] at hT
    obtain ⟨d, hd, hdws⟩ := dropWsRight_getLast l hXne
    have hTlast : (dropWs (dropWsRight l)).getLast? = some d := by
      have hdec : dropWsRight l =
          (dropWsRight l).takeWhile isWs ++ dropWs (dropWsRight l) :=
        (List.takeWhile_append_dropWhile isWs (dropWsRight l)).symm
      rw [← hd]
      conv_rhs => rw [hdec]
      rw [List.getLast?_append_of_ne_nil _ (by rw [hT]; simp)]
    rw [← hT]
    exact dropWsRight_eq_self _ d hTlast hdws

/-- Characters survive `dropWs` only from the original list. -/
theorem mem_dropWs (l : List Char) (c : Char) (h : c ∈ dropWs l) : c ∈ l := by
  have h2 := List.takeWhile_append_dropWhile isWs l
  rw [← h2]
  exact List.mem_append_right _ h

/-- Characters survive `dropWsRight` only from the original list. -/
theorem mem_dropWsRight (l : List Char) (c : Char) (h : c ∈ dropWsRight l) : c ∈ l := by
  obtain ⟨w, hw, _⟩ := dropWsRight_decomp l
  rw [hw]
  exact List.mem_append_left _ h

/-- Characters of a joined line list are newlines or line characters. -/
theorem mem_joinNL (F : List (List Char)) (c : Char) (h : c ∈ joinNL F) :
    c = '\n' ∨ ∃ f ∈ F, c ∈ f := by
  induction F with
  | nil => simp [joinNL] at h
  | cons f F' ih =>
    cases F' with
    | nil =>
      right
      exact ⟨f, List.mem_cons_self _ _, h⟩
    | cons g F'' =>
      rw [show joinNL (f :: g :: F'') = f ++ '\n' :: joinNL (g :: F'') from rfl] at h
      rcases List.mem_append.mp h with h' | h'
      · exact Or.inr ⟨f, List.mem_cons_self _ _, h'⟩
      · rcases List.mem_cons.mp h' with h'' | h''
        · exact Or.inl h''
        · rcases ih h'' with h3 | ⟨f', hf', hc'⟩
          · exact Or.inl h3
          · exact Or.inr ⟨f', List.mem_cons_of_mem _ hf', hc'⟩

/-- The sanitizer introduces no carriage return. -/
theorem noCR_sanitizeChars (cs t : List Char) (hcr : '\r' ∉ cs)
    (h : sanitizeChars cs = some t) : '\r' ∉ t := by
  intro hmem
  rw [sanitizeChars] at h
  by_cases he : (trimChars (joinNL ((splitLines cs).filter lineKept))).isEmpty = true
  · rw [if_pos he] at h
    cases h
  · rw [if_neg he] at h
    injection h with h
    rw [← h] at hmem
    have hmem2 : '\r' ∈ joinNL ((splitLines cs).filter lineKept) :=
      mem_dropWsRight _ _ (mem_dropWs _ _ hmem)
    rcases mem_joinNL _ _ hmem2 with h3 | ⟨f, hf, hc'⟩
    · simp at h3
    · exact hcr (mem_splitLines cs f (List.mem_filter.mp hf).1 '\r' hc')

/-- Rejoining the lines of a CR-free string restores it. -/
theorem joinNL_splitLines (l : List Char) (h : '\r' ∉ l) :
    joinNL (splitLines l) = l := by
  induction l using splitLines.induct with
  | case1 => rfl
  | case2 t ih => exact absurd (List.mem_cons_self _ _) h
  | case3 t ih =>
    rw [splitLines]
    cases hsp : splitLines t with
    | nil => exact absurd hsp (splitLines_ne_nil t)
    | cons x xs =>
      rw [show joinNL ([] :: x :: xs) = [] ++ '\n' :: joinNL (x :: xs) from rfl]
      rw [← hsp, ih (fun hx => h (List.mem_cons_of_mem _ hx))]
      rfl
  | case4 c t h1 h2 ih =>
    have hct : '\r' ∉ t := fun hx => h (List.mem_cons_of_mem _ hx)
    rw [splitLines_cons_generic c t h1 h2]
    cases hsp : splitLines t with
    | nil => exact absurd hsp (splitLines_ne_nil t)
    | cons x xs =>
      dsimp only [consHead]
      cases xs with
      | nil => rw [show joinNL [c :: x] = c :: x from rfl, ← splitLines_eq_single t x hsp]
      | cons y ys =>
        have h5 := ih hct
        rw [hsp, show joinNL (x :: y :: ys) = x ++ '\n' :: joinNL (y :: ys) from rfl] at h5
        rw [show joinNL ((c :: x) :: y :: ys) = (c :: x) ++ '\n' :: joinNL (y :: ys) from rfl]
        rw [List.cons_append, h5]

/-- Structure of every non-null `sanitizeChars` result: non-empty, trimmed
on both sides, and every line passes the filter. -/
theorem sanitizeChars_normalized (cs t : List Char) (h : sanitizeChars cs = some t) :
    t ≠ [] ∧ dropWs t = t ∧ dropWsRight t = t ∧
    ∀ L ∈ splitLines t, lineKept L = true := by
  rw [sanitizeChars] at h
  by_cases he : (trimChars (joinNL ((splitLines cs).filter lineKept))).isEmpty = true
  · rw [if_pos he] at h
    cases h
  · rw [if_neg he] at h
    injection h with h
    have hkeptF : ∀ f ∈ (splitLines cs).filter lineKept, lineKept f = true :=
      fun f hf => (List.mem_filter.mp hf).2
    have hnlF : ∀ f ∈ (splitLines cs).filter lineKept, '\n' ∉ f :=
      fun f hf => splitLines_noNL cs f (List.mem_filter.mp hf).1
    have hT : trimChars (joinNL ((splitLines cs).filter lineKept)) =
        dropWs (dropWsRight (joinNL ((splitLines cs).filter lineKept))) := rfl
    refine ⟨?_, ?_, ?_, ?_⟩
    · intro hx
      rw [hx] at h
      rw [h] at he
      simp at he
    · rw [← h, hT, dropWs_idem]
    · rw [← h, hT, dropWsRight_dropWs_dropWsRight]
    · intro L hL
      rw [← h, hT, splitLines_dropWs, splitLines_dropWsRight,
        splitLines_joinNL _ hnlF] at hL
      exact ltrimSpec_kept _ (rtrimSpec_kept _ (joinSpec_kept _ hkeptF)) L hL

/-- On carriage-return-free input the sanitizer is idempotent. -/
theorem sanitizeChars_idem_noCR (cs t : List Char) (hcr : '\r' ∉ cs)
    (h : sanitizeChars cs = some t) : sanitizeChars t = some t := by
  obtain ⟨hne, hl, hr, hkept⟩ := sanitizeChars_normalized cs t h
  have hcrt : '\r' ∉ t := noCR_sanitizeChars cs t hcr h
  rw [sanitizeChars, List.filter_eq_self.mpr hkept, joinNL_splitLines t hcrt,
    show trimChars t = dropWs (dropWsRight t) from rfl, hr, hl, if_neg (by simpa using hne)]

/-- C9 counterexample: `sanitizeAIText` is not idempotent — on
`"a\r\r\nb"` it returns `"a\r\nb"`, but applied to that output it returns
`"a\nb"` (the second pass re-splits the CRLF it created). -/
theorem sanitizeAIText_not_idempotent :
    sanitizeAIText (some "a\r\r\nb") = some "a\r\nb" ∧
    sanitizeAIText (some "a\r\nb") = some "a\nb" ∧
    sanitizeAIText (sanitizeAIText (some "a\r\r\nb")) ≠ sanitizeAIText (some "a\r\r\nb") := by
  refine ⟨by decide, by decide, by decide⟩

/-- C9 (amended): for every input, `sanitizeAIText` returns null or a
non-empty string that is trimmed on both sides and whose every line passes
the SSE filter (no `data:` line, no `[DONE]` line); and on inputs free of
carriage returns, applying it to its own output returns the output
unchanged. -/
theorem sanitizeAIText_amended (s : String) :
    (sanitizeAIText (some s) = none ∨
      ∃ t : String, sanitizeAIText (some s) = some t ∧ t ≠ "" ∧
        dropWs t.data = t.data ∧ dropWsRight t.data = t.data ∧
        ∀ L ∈ splitLines t.data, lineKept L = true) ∧
    ('\r' ∉ s.data →
      sanitizeAIText (sanitizeAIText (some s)) = sanitizeAIText (some s)) := by
  constructor
  · cases hs : sanitizeChars s.data with
    | none =>
      left
      simp [sanitizeAIText, hs]
    | some t =>
      right
      obtain ⟨hne, hl, hr, hkept⟩ := sanitizeChars_normalized s.data t hs
      refine ⟨String.mk t, by simp [sanitizeAIText, hs], ?_, hl, hr, hkept⟩
      intro hx
      exact hne (by simpa using congrArg String.data hx)
  · intro hcr
    cases hs : sanitizeChars s.data with
    | none => simp [sanitizeAIText, hs]
    | some t =>
      have h2 := sanitizeChars_idem_noCR s.data t hcr hs
      simp [sanitizeAIText, hs, h2]

/-- Witness for `sanitizeAIText_amended` on a CR-free stream transcript. -/
theorem sanitizeAIText_amended_witness :
    sanitizeAIText (sanitizeAIText (some "data: x\nHello \n[DONE]\n")) =
      sanitizeAIText (some "data: x\nHello \n[DONE]\n") ∧
    sanitizeAIText (some "data: x\nHello \n[DONE]\n") = some "Hello" :=
  ⟨(sanitizeAIText_amended "data: x\nHello \n[DONE]\n").2 (by decide), by decide⟩
